import Mathlib

/-!
Shallow embedding of `src/utils/findCommentsInRaws.js` (stylelint-scss).

The JavaScript function scans a raw CSS string left to right, keeping a stack
of lexical contexts ("modes"), and collects comment records for CSS block
comments and double-slash line comments.  We model the input string as
`List Char`, JavaScript array-of-frames as a Lean list whose HEAD is the last
entered frame (the active context), and every JavaScript runtime error
(a TypeError from reading a property of `undefined`, or from indexing the
`null` result of a failed regex `exec`) as `none` of an `Option`.

The three regular expressions used by the source are embedded as executable
functions whose doc comments spell out the regex they implement; they follow
the exact leftmost / greedy / lazy backtracking semantics of JavaScript
regexes on the shapes of input the scanner can produce.
-/

namespace FindComments

/-- The single-quote character, written via its code point. -/
def singleQuote : Char := Char.ofNat 39

/-- Left curly bracket character. -/
def lbrace : Char := Char.ofNat 123

/-- Right curly bracket character. -/
def rbrace : Char := Char.ofNat 125

/-- JavaScript regex class `\s`: the whitespace characters recognised by
JavaScript regular expressions. -/
def isJsWhitespace (c : Char) : Bool :=
  c = ' ' || c = '\t' || c = '\n' || c = '\x0b' || c = '\x0c' || c = '\r' ||
  c = Char.ofNat 0xa0 || c = Char.ofNat 0x1680 ||
  (0x2000 ≤ c.toNat && c.toNat ≤ 0x200a) ||
  c = Char.ofNat 0x2028 || c = Char.ofNat 0x2029 || c = Char.ofNat 0x202f ||
  c = Char.ofNat 0x205f || c = Char.ofNat 0x3000 || c = Char.ofNat 0xfeff

/-- Characters matched by `[a-zA-Z0-9_-]` (identifier characters of the
function-name regex in the source, line 68). -/
def isIdentChar (c : Char) : Bool :=
  c.isAlpha || c.isDigit || c = '_' || c = '-'

/-- Characters of the class `[:\s,.(){}*+/%]` from the function-name regex in
the source (line 68). -/
def isFnBoundaryChar (c : Char) : Bool :=
  c = ':' || isJsWhitespace c || c = ',' || c = '.' || c = '(' || c = ')' ||
  c = lbrace || c = rbrace || c = '*' || c = '+' || c = '/' || c = '%'

/-- Characters not matched by the JavaScript regex `.` (dot): line
terminators. -/
def isLineTermChar (c : Char) : Bool :=
  c = '\n' || c = '\r' || c = Char.ofNat 0x2028 || c = Char.ofNat 0x2029

/-- JavaScript `rawString.substring(a, b)` (with `a ≤ b`, as in every call
site of the source): the characters at indices `a` (inclusive) to `b`
(exclusive), clamped to the length of the string. -/
def substring (s : List Char) (a b : Nat) : List Char :=
  (s.take b).drop a

/-- Embeds `p.search(/\n\s*$/) !== -1` (source lines 95 and 109, where the
source tests `=== -1`; this function returns whether the regex MATCHES).
The regex matches exactly when some newline is followed by nothing but
whitespace up to the end, i.e. exactly when the trailing whitespace run of
`p` contains a newline. -/
def searchNlWs (p : List Char) : Bool :=
  (p.reverse.takeWhile isJsWhitespace).any (fun ch => ch == '\n')

/-- Embeds `rest.search(/^\s*?\S+\s*?\n/) !== -1` (source line 132).
The anchored regex matches exactly when, after the (possibly empty) leading
whitespace of `rest`, there is a nonempty run of non-whitespace characters
whose following whitespace run contains a newline: the lazy `\s*?` groups can
expand across any whitespace (newlines included), and the `\S+` group is
forced to start at the first non-whitespace character and to cover its whole
run, since a shorter choice leaves a non-whitespace character where `\s*?\n`
must match. -/
def searchInlineBefore (rest : List Char) : Bool :=
  let afterWs := rest.dropWhile isJsWhitespace
  let tok := afterWs.takeWhile (fun ch => !isJsWhitespace ch)
  if tok.length = 0 then false
  else ((afterWs.drop tok.length).takeWhile isJsWhitespace).any (fun ch => ch == '\n')

/-- Embeds
`/(?:^|(?:\n)|(?:\r)|(?:\s-)|[:\s,.(){}*+/%])([a-zA-Z0-9_-]*)$/.exec(p)`
(source lines 67-69), returning the captured group 1, or `none` when the
regex does not match (in which case the JavaScript code indexes `null` and
throws a TypeError).

Because the capture is anchored at `$` and consists of identifier
characters, any match must place the capture inside the maximal trailing
identifier run `run` of `p`; the leftmost match starts just before `run`.
In alternation order: `^` applies when `run` is all of `p`; otherwise the
character `b` just before `run` must be `\n` or `\r` (capture `run`), or a
whitespace character followed by `-` as the first character of `run`
(capture `run` without the dash; the `\n`/`\r` alternatives come first), or
a character of the class (capture `run`).  Otherwise there is no match. -/
def execFunctionName (p : List Char) : Option (List Char) :=
  let run := (p.reverse.takeWhile isIdentChar).reverse
  let front := p.take (p.length - run.length)
  match front.getLast? with
  | none => some run
  | some b =>
    if b = '\n' ∨ b = '\r' then some run
    else if isJsWhitespace b ∧ run.head? = some '-' then some (run.drop 1)
    else if isFnBoundaryChar b then some run
    else none

/-- Result of the block-comment decomposition regex (source line 122):
capture groups 1, 2, 3, 4, 5. -/
structure BlockParts where
  startToken : List Char
  left : List Char
  text : List Char
  right : List Char
  endToken : List Char
deriving DecidableEq

/-- Embeds `/^(\/\*+[!#]{0,1})(\s*)([\s\S]*?)(\s*?)(\*+\/)$/.exec(c)`
(source line 122).  Backtracking order: the greedy `\*+` takes the longest
prefix star run that still leaves room for a two-character `*+\/` tail;
`[!#]{0,1}` greedily takes a flag character when one is present right after
the stars and room remains; `(\s*)` greedily takes the following whitespace
run; the lazy `([\s\S]*?)(\s*?)` then split the middle so that the close
token is the maximal trailing star run before the final slash and group 4 is
the whitespace run immediately before it. -/
def execBlockComment (c : List Char) : Option BlockParts :=
  let n := c.length
  if n < 4 then none
  else if c.head? ≠ some '/' then none
  else
    let r := ((c.drop 1).takeWhile (fun ch => ch = '*')).length
    if r = 0 then none
    else
      let rev := c.reverse
      if rev.head? ≠ some '/' then none
      else
        let e := ((rev.drop 1).takeWhile (fun ch => ch = '*')).length
        if e = 0 then none
        else
          let t0 := n - 1 - e
          let startLen :=
            if (c.get? (1 + r) = some '!' ∨ c.get? (1 + r) = some '#') ∧ 1 + r + 1 ≤ n - 2
            then 2 + r
            else if 1 + r ≤ n - 2 then 1 + r
            else n - 2
          let left := (c.drop startLen).takeWhile isJsWhitespace
          let q := startLen + left.length
          let tmin := max t0 q
          let mid := (c.take tmin).drop q
          let rightLen := (mid.reverse.takeWhile isJsWhitespace).length
          some (BlockParts.mk (c.take startLen) left (mid.take (mid.length - rightLen))
            (mid.drop (mid.length - rightLen)) (c.drop tmin))

/-- Result of the line-comment decomposition regex (source line 147):
capture groups 1, 2, 3, 4. -/
structure LineParts where
  startToken : List Char
  left : List Char
  text : List Char
  right : List Char
deriving DecidableEq

/-- Embeds `/^(\/+)(\s*)(.*?)(\s*?)$/.exec(c)` (source line 147), `none`
when the regex does not match (the JavaScript code then throws indexing
`null`).  The greedy `\/+` takes the whole leading slash run, the greedy
`(\s*)` the following whitespace run; the lazy `(.*?)(\s*?)$` split the rest
so that group 4 is the maximal trailing whitespace run.  Group 3 is matched
by `.`, which does not match line terminators, so the regex fails to match
exactly when a line terminator occurs in group 3's span. -/
def execLineComment (c : List Char) : Option LineParts :=
  let startToken := c.takeWhile (fun ch => ch = '/')
  if startToken.length = 0 then none
  else
    let rest2 := (c.drop startToken.length).dropWhile isJsWhitespace
    let left := (c.drop startToken.length).takeWhile isJsWhitespace
    let rightLen := (rest2.reverse.takeWhile isJsWhitespace).length
    let text := rest2.take (rest2.length - rightLen)
    if text.any isLineTermChar then none
    else some (LineParts.mk startToken left text (rest2.drop (rest2.length - rightLen)))

/-- The comment type strings of the source: `"css"` or `"double-slash"`. -/
inductive CommentType where
  | css
  | doubleSlash
deriving DecidableEq

/-- The mode strings of the source: `"normal"`, `"string"`, `"comment"`,
`"url"`, `"parens"`. -/
inductive Mode where
  | normal
  | str
  | comment
  | url
  | parens
deriving DecidableEq

/-- A stack frame of `modesEntered` (source lines 31-34): a mode together
with the `character` property (`null`, a quote character, `"("`, `"/*"` or
`"//"`, modelled as an optional list of characters). -/
structure Frame where
  mode : Mode
  character : Option (List Char)
deriving DecidableEq

/-- The partially built comment object between the opening of a comment and
its close (source lines 92-96 and 106-110): the fields assigned at opening
time. -/
structure Pending where
  type : CommentType
  start : Nat
  inlineAfter : Bool
deriving DecidableEq

/-- The `raws` object of an emitted record (source lines 124-130 and
150-155); `endToken` is absent on double-slash records. -/
structure Raws where
  startToken : List Char
  left : List Char
  text : List Char
  right : List Char
  endToken : Option (List Char)
deriving DecidableEq

/-- One emitted comment record.  `endIdx` renders the source's `end`
property (a reserved word in Lean). -/
structure CommentRec where
  type : CommentType
  start : Nat
  endIdx : Nat
  raws : Raws
  text : List Char
  inlineAfter : Bool
  inlineBefore : Bool
deriving DecidableEq

/-- The mutable state of the scan: the `result` accumulator, the pending
`comment` object (`none` renders the empty object `\x7b\x7d`), and the
`modesEntered` stack, head = innermost (last entered) frame. -/
structure ScanState where
  result : List CommentRec
  comment : Option Pending
  modesEntered : List Frame
deriving DecidableEq

/-- The body of the `for` loop of the source (lines 36-166) at index `i`
with current character `character`.  Returns the state after the iteration
together with the skip flag (`true` when the body executed `i++`, so the
next index is `i + 2`), or `none` when the JavaScript code would throw:
reading `.mode` of `undefined` on an empty stack (line 42), or indexing the
`null` result of a failed regex `exec` (lines 67-69, 122, 147). -/
def stepAt (s : List Char) (i : Nat) (character : Char) (st : ScanState) :
    Option (ScanState × Bool) :=
  match st.modesEntered with
  | [] => none
  | top :: restFrames =>
    if character = '"' ∨ character = singleQuote then
      if top.mode = Mode.comment then some (st, false)
      else if top.mode = Mode.str ∧ top.character = some [character] ∧
          ¬((if 0 < i then s[i - 1]? else none) = some '\\') then
        some ({ st with modesEntered := restFrames }, false)
      else
        some ({ st with
          modesEntered := Frame.mk Mode.str (some [character]) :: st.modesEntered }, false)
    else if character = '(' then
      if top.mode = Mode.comment ∨ top.mode = Mode.str then some (st, false)
      else
        match execFunctionName (substring s 0 i) with
        | none => none
        | some functionName =>
          some ({ st with
            modesEntered := Frame.mk
              (if functionName = ['u', 'r', 'l'] then Mode.url else Mode.parens)
              (some ['(']) :: st.modesEntered }, false)
    else if character = ')' then
      if top.mode = Mode.comment ∨ top.mode = Mode.str then some (st, false)
      else some ({ st with modesEntered := restFrames }, false)
    else if character = '/' then
      if top.mode = Mode.comment then some (st, false)
      else if s[i + 1]? = some '*' then
        some ({ st with
          modesEntered := Frame.mk Mode.comment (some ['/', '*']) :: st.modesEntered,
          comment := some (Pending.mk CommentType.css i
            (!searchNlWs (substring s 0 i))) }, true)
      else if s[i + 1]? = some '/' then
        if top.mode = Mode.url then some (st, false)
        else
          some ({ st with
            modesEntered := Frame.mk Mode.comment (some ['/', '/']) :: st.modesEntered,
            comment := some (Pending.mk CommentType.doubleSlash i
              (!searchNlWs (substring s 0 i))) }, true)
      else some (st, false)
    else if character = '*' then
      if top.mode = Mode.comment ∧ top.character = some ['/', '*'] ∧
          s[i + 1]? = some '/' then
        match st.comment with
        | none => none
        | some pending =>
          match execBlockComment (substring s pending.start (i + 1 + 1)) with
          | none => none
          | some m =>
            some ({ st with
              modesEntered := restFrames,
              comment := none,
              result := st.result ++ [CommentRec.mk pending.type pending.start (i + 1)
                (Raws.mk m.startToken m.left (substring s pending.start (i + 1 + 1))
                  m.right (some m.endToken))
                m.text pending.inlineAfter
                (searchInlineBefore (s.drop (i + 2)))] }, true)
      else some (st, false)
    else
      if character = '\n' ∨ i = s.length - 1 then
        if top.mode = Mode.comment ∧ top.character = some ['/', '/'] then
          match st.comment with
          | none => none
          | some pending =>
            let endIdx := if character = '\n' then i - 1 else i
            match execLineComment (substring s pending.start (endIdx + 1)) with
            | none => none
            | some m =>
              some ({ st with
                modesEntered := restFrames,
                comment := none,
                result := st.result ++ [CommentRec.mk pending.type pending.start endIdx
                  (Raws.mk m.startToken m.left (substring s pending.start (endIdx + 1))
                    m.right none)
                  m.text pending.inlineAfter false] }, false)
        else some (st, false)
      else some (st, false)

/-- The scan loop, structurally recursive on a fuel argument.  Because every
iteration advances `i` by at least one, fuel `s.length` (as supplied by
`findCommentsInRaws`) always suffices: the `0` case and the `i ≥ s.length`
case coincide, both returning the accumulated result, so fuel exhaustion
never produces a value different from the source loop's. -/
def scanLoop (s : List Char) : Nat → ScanState → Nat → Option (List CommentRec)
  | 0, st, _ => some st.result
  | Nat.succ fuel, st, i =>
    if h : i < s.length then
      match stepAt s i s[i] st with
      | none => none
      | some (st2, skip) => scanLoop s fuel st2 (i + (if skip then 2 else 1))
    else some st.result

/-- The initial state (source lines 26-34): empty result, empty comment
object, and the sentinel frame with mode `"normal"`, character `null`. -/
def initState : ScanState :=
  ScanState.mk [] none [Frame.mk Mode.normal none]

/-- `findCommentsInRaws(rawString)` (source line 25): run the scan from the
initial state at index 0.  `some` of the result list, or `none` when the
JavaScript function would throw. -/
def findCommentsInRaws (s : List Char) : Option (List CommentRec) :=
  scanLoop s s.length initState 0

/-- Step-indexed trace of the same loop: run exactly `n` iterations of the
body from a given state and index, stopping early at the end of the input.
Used to state properties of intermediate states of the scan. -/
def scanTrace (s : List Char) : Nat → ScanState × Nat → Option (ScanState × Nat)
  | 0, p => some p
  | Nat.succ n, (st, i) =>
    if h : i < s.length then
      match stepAt s i s[i] st with
      | none => none
      | some (st2, skip) => scanTrace s n (st2, i + (if skip then 2 else 1))
    else some (st, i)

/-- The text after the last newline of `p` (all of `p` when it has no
newline): the content of the source line on which position `p.length` sits. -/
def afterLastNewline (p : List Char) : List Char :=
  (p.reverse.takeWhile (fun ch => ch != '\n')).reverse

/-- Properties that every emitted record enjoys, relative to the input `s`:
its raw text is the exact span of the input from `start` to `endIdx`
inclusive, its inline-after flag is the newline test on the prefix before
`start`, and its inline-before flag is the lookahead test after the record
for block records and constantly `false` for double-slash records. -/
def RecP (s : List Char) (r : CommentRec) : Prop :=
  r.raws.text = substring s r.start (r.endIdx + 1) ∧
  r.inlineAfter = !searchNlWs (substring s 0 r.start) ∧
  (r.type = CommentType.css → r.inlineBefore = searchInlineBefore (s.drop (r.endIdx + 1))) ∧
  (r.type = CommentType.doubleSlash → r.inlineBefore = false)

/-- Properties of an open pending comment: its inline-after flag was computed
from the prefix before its start, and its type agrees with the comment frame
on top of the stack (when the top frame is a comment frame). -/
def PendP (s : List Char) (st : ScanState) (p : Pending) : Prop :=
  p.inlineAfter = !searchNlWs (substring s 0 p.start) ∧
  ∀ f fs, st.modesEntered = f :: fs →
    ((f.mode = Mode.comment ∧ f.character = some ['/', '*']) → p.type = CommentType.css) ∧
    ((f.mode = Mode.comment ∧ f.character = some ['/', '/']) → p.type = CommentType.doubleSlash)

/-- The scan-state invariant: all emitted records satisfy `RecP`, the pending
comment satisfies `PendP`, and no frame below the top one is a comment frame
(comment frames never get buried: while a comment is open nothing pushes). -/
def StInv (s : List Char) (st : ScanState) : Prop :=
  (∀ r ∈ st.result, RecP s r) ∧
  (∀ p, st.comment = some p → PendP s st p) ∧
  (∀ f ∈ st.modesEntered.drop 1, f.mode ≠ Mode.comment)

/-- The single record the scanner emits on input `/*a*/`
(used to instantiate claim C10's theorem). -/
def sampleBlockRec : CommentRec :=
  CommentRec.mk CommentType.css 0 4
    (Raws.mk (String.data "/*") [] (String.data "/*a*/") [] (some (String.data "*/")))
    (String.data "a") true false

/-- The single record the scanner emits on input `//b`
(used to instantiate claim C5's theorem). -/
def sampleLineRec : CommentRec :=
  CommentRec.mk CommentType.doubleSlash 0 2
    (Raws.mk (String.data "//") [] (String.data "//b") [] none)
    (String.data "b") true false

/-- The single record the scanner emits on input `/*c*/ x` followed by a
newline (used to instantiate claim C6's theorem). -/
def sampleInlineRec : CommentRec :=
  CommentRec.mk CommentType.css 0 4
    (Raws.mk (String.data "/*") [] (String.data "/*c*/") [] (some (String.data "*/")))
    (String.data "c") true true

theorem slash_ne_dq : ('/' : Char) ≠ '"' := by decide

theorem slash_ne_sq : ('/' : Char) ≠ singleQuote := by decide

theorem star_ne_dq : ('*' : Char) ≠ '"' := by decide

theorem star_ne_sq : ('*' : Char) ≠ singleQuote := by decide

/-- A `/` followed by another `/` while the active context is a `url(`
argument is ignored: no state change at all (source lines 99-101). -/
theorem stepAt_url_slash_noop (s : List Char) (i : Nat) (st : ScanState) (top : Frame)
    (fs : List Frame) (hme : st.modesEntered = top :: fs) (hmode : top.mode = Mode.url)
    (hnext : s[i + 1]? = some '/') :
    stepAt s i '/' st = some (st, false) := by
  simp [stepAt, hme, hmode, hnext, slash_ne_dq, slash_ne_sq]

/-- A `/` followed by `*` outside a comment opens a block comment: a comment
frame is pushed and the pending comment is initialised (source lines 87-98). -/
theorem stepAt_open_block (s : List Char) (i : Nat) (st : ScanState) (top : Frame)
    (fs : List Frame) (hme : st.modesEntered = top :: fs) (hmode : top.mode ≠ Mode.comment)
    (hnext : s[i + 1]? = some '*') :
    stepAt s i '/' st = some
      ({ st with
        modesEntered := Frame.mk Mode.comment (some ['/', '*']) :: st.modesEntered,
        comment := some (Pending.mk CommentType.css i (!searchNlWs (substring s 0 i))) },
        true) := by
  simp [stepAt, hme, hmode, hnext, slash_ne_dq, slash_ne_sq]

/-- A `*` followed by `/` while a block comment is open closes it and emits
its record (source lines 117-137). -/
theorem stepAt_close_block (s : List Char) (i : Nat) (st : ScanState) (top : Frame)
    (fs : List Frame) (p : Pending) (m : BlockParts)
    (hme : st.modesEntered = top :: fs) (hmode : top.mode = Mode.comment)
    (hchar : top.character = some ['/', '*'])
    (hnext : s[i + 1]? = some '/') (hp : st.comment = some p)
    (hexec : execBlockComment (substring s p.start (i + 1 + 1)) = some m) :
    stepAt s i '*' st = some
      ({ st with
        modesEntered := fs, comment := none,
        result := st.result ++ [CommentRec.mk p.type p.start (i + 1)
          (Raws.mk m.startToken m.left (substring s p.start (i + 1 + 1)) m.right
            (some m.endToken))
          m.text p.inlineAfter (searchInlineBefore (s.drop (i + 2)))] }, true) := by
  simp [stepAt, hme, hmode, hchar, hnext, hp, hexec, star_ne_dq, star_ne_sq]

/-- While a block comment is open, any character other than the `*` of a
closing `*/` changes nothing: every switch case defers to the comment mode. -/
theorem stepAt_block_noop (s : List Char) (i : Nat) (c : Char) (st : ScanState) (top : Frame)
    (fs : List Frame) (hme : st.modesEntered = top :: fs) (hmode : top.mode = Mode.comment)
    (hchar : top.character = some ['/', '*'])
    (hno : ¬(c = '*' ∧ s[i + 1]? = some '/')) :
    stepAt s i c st = some (st, false) := by
  by_cases h1 : c = '"' ∨ c = singleQuote
  · simp [stepAt, hme, hmode, h1]
  · by_cases h2 : c = '('
    · simp [stepAt, hme, hmode, h1, h2]
    · by_cases h3 : c = ')'
      · simp [stepAt, hme, hmode, h1, h2, h3]
      · by_cases h4 : c = '/'
        · simp [stepAt, hme, hmode, h1, h2, h3, h4]
        · by_cases h5 : c = '*'
          · have h6 : ¬(s[i + 1]? = some '/') := fun hh => hno ⟨h5, hh⟩
            simp [stepAt, hme, hmode, hchar, h1, h2, h3, h4, h5, h6]
          · by_cases h7 : c = '\n' ∨ i = s.length - 1
            · simp [stepAt, hme, hmode, hchar, h1, h2, h3, h4, h5, h7]
            · simp [stepAt, hme, hmode, h1, h2, h3, h4, h5, h7]

theorem StInv_of_pop (s : List Char) (st : ScanState) (top : Frame) (fs : List Frame)
    (hinv : StInv s st) (hme : st.modesEntered = top :: fs) :
    StInv s { st with modesEntered := fs } := by
  obtain ⟨hres, hpend, htail⟩ := hinv
  rw [hme] at htail
  simp only [List.drop_succ_cons, List.drop_zero] at htail
  refine ⟨hres, ?_, ?_⟩
  · intro p hp
    obtain ⟨hpa, _⟩ := hpend p hp
    refine ⟨hpa, fun f fs' hfs => ?_⟩
    simp only at hfs
    have hfm : f.mode ≠ Mode.comment := htail f (by rw [hfs]; exact List.mem_cons_self f fs')
    exact ⟨fun hc => absurd hc.1 hfm, fun hc => absurd hc.1 hfm⟩
  · intro f hf
    simp only at hf
    exact htail f (List.drop_subset 1 fs hf)

theorem StInv_of_push (s : List Char) (st : ScanState) (top newf : Frame) (fs : List Frame)
    (hinv : StInv s st) (hme : st.modesEntered = top :: fs)
    (htop : top.mode ≠ Mode.comment) (hnew : newf.mode ≠ Mode.comment) :
    StInv s { st with modesEntered := newf :: top :: fs } := by
  obtain ⟨hres, hpend, htail⟩ := hinv
  refine ⟨hres, ?_, ?_⟩
  · intro p hp
    obtain ⟨hpa, _⟩ := hpend p hp
    refine ⟨hpa, fun f fs' hfs => ?_⟩
    simp only [List.cons.injEq] at hfs
    obtain ⟨hf, _⟩ := hfs
    subst hf
    exact ⟨fun hc => absurd hc.1 hnew, fun hc => absurd hc.1 hnew⟩
  · intro f hf
    simp only [List.drop_succ_cons, List.drop_zero] at hf
    rw [hme] at htail
    simp only [List.drop_succ_cons, List.drop_zero] at htail
    rcases List.mem_cons.mp hf with hf | hf
    · subst hf; exact htop
    · exact htail f hf

theorem StInv_of_open (s : List Char) (st : ScanState) (top : Frame) (fs : List Frame)
    (i : Nat) (chr : List Char) (ty : CommentType)
    (hinv : StInv s st) (hme : st.modesEntered = top :: fs)
    (htop : top.mode ≠ Mode.comment)
    (hcss : chr = ['/', '*'] → ty = CommentType.css)
    (hds : chr = ['/', '/'] → ty = CommentType.doubleSlash) :
    StInv s { st with
      modesEntered := Frame.mk Mode.comment (some chr) :: top :: fs,
      comment := some (Pending.mk ty i (!searchNlWs (substring s 0 i))) } := by
  obtain ⟨hres, hpend, htail⟩ := hinv
  refine ⟨hres, ?_, ?_⟩
  · intro p hp
    simp only [Option.some.injEq] at hp
    subst hp
    refine ⟨rfl, fun f fs' hfs => ?_⟩
    simp only [List.cons.injEq] at hfs
    obtain ⟨hf, _⟩ := hfs
    subst hf
    constructor
    · intro hc
      simp only [Option.some.injEq] at hc
      exact hcss hc.2
    · intro hc
      simp only [Option.some.injEq] at hc
      exact hds hc.2
  · intro f hf
    simp only [List.drop_succ_cons, List.drop_zero] at hf
    rw [hme] at htail
    simp only [List.drop_succ_cons, List.drop_zero] at htail
    rcases List.mem_cons.mp hf with hf | hf
    · subst hf; exact htop
    · exact htail f hf

theorem StInv_of_close_block (s : List Char) (st : ScanState) (top : Frame) (fs : List Frame)
    (i : Nat) (p : Pending) (a b d e t : List Char)
    (hinv : StInv s st) (hme : st.modesEntered = top :: fs)
    (htop : top.mode = Mode.comment) (hchar : top.character = some ['/', '*'])
    (hp : st.comment = some p) :
    StInv s { st with
      modesEntered := fs, comment := none,
      result := st.result ++ [CommentRec.mk p.type p.start (i + 1)
        (Raws.mk a b (substring s p.start (i + 1 + 1)) d (some e))
        t p.inlineAfter (searchInlineBefore (s.drop (i + 2)))] } := by
  obtain ⟨hres, hpend, htail⟩ := hinv
  obtain ⟨hpa, hcoh⟩ := hpend p hp
  have hty : p.type = CommentType.css := (hcoh top fs hme).1 ⟨htop, hchar⟩
  refine ⟨?_, ?_, ?_⟩
  · intro r hr
    simp only [List.mem_append, List.mem_singleton] at hr
    rcases hr with hr | hr
    · exact hres r hr
    · subst hr
      refine ⟨rfl, hpa, ?_, ?_⟩
      · intro _
        rfl
      · intro hds
        rw [hty] at hds
        exact absurd hds (by simp)
  · intro q hq
    simp only at hq
    exact absurd hq (by simp)
  · intro f hf
    simp only at hf
    rw [hme] at htail
    simp only [List.drop_succ_cons, List.drop_zero] at htail
    exact htail f (List.drop_subset 1 fs hf)

theorem StInv_of_close_line (s : List Char) (st : ScanState) (top : Frame) (fs : List Frame)
    (j : Nat) (p : Pending) (a b d t : List Char)
    (hinv : StInv s st) (hme : st.modesEntered = top :: fs)
    (htop : top.mode = Mode.comment) (hchar : top.character = some ['/', '/'])
    (hp : st.comment = some p) :
    StInv s { st with
      modesEntered := fs, comment := none,
      result := st.result ++ [CommentRec.mk p.type p.start j
        (Raws.mk a b (substring s p.start (j + 1)) d none)
        t p.inlineAfter false] } := by
  obtain ⟨hres, hpend, htail⟩ := hinv
  obtain ⟨hpa, hcoh⟩ := hpend p hp
  have hty : p.type = CommentType.doubleSlash := (hcoh top fs hme).2 ⟨htop, hchar⟩
  refine ⟨?_, ?_, ?_⟩
  · intro r hr
    simp only [List.mem_append, List.mem_singleton] at hr
    rcases hr with hr | hr
    · exact hres r hr
    · subst hr
      refine ⟨rfl, hpa, ?_, ?_⟩
      · intro hcss
        rw [hty] at hcss
        exact absurd hcss (by simp)
      · intro _
        rfl
  · intro q hq
    simp only at hq
    exact absurd hq (by simp)
  · intro f hf
    simp only at hf
    rw [hme] at htail
    simp only [List.drop_succ_cons, List.drop_zero] at htail
    exact htail f (List.drop_subset 1 fs hf)

theorem stepAt_preserves (s : List Char) (i : Nat) (c : Char) (st st2 : ScanState) (sk : Bool)
    (hstep : stepAt s i c st = some (st2, sk)) (hinv : StInv s st) : StInv s st2 := by
  match hme : st.modesEntered with
  | [] => rw [stepAt, hme] at hstep; exact absurd hstep (by simp)
  | top :: fs =>
  simp only [stepAt, hme] at hstep
  by_cases h1 : c = '"' ∨ c = singleQuote
  · rw [if_pos h1] at hstep
    by_cases h1a : top.mode = Mode.comment
    · rw [if_pos h1a] at hstep
      injection hstep with hq; injection hq with hA hB; subst hA; exact hinv
    · rw [if_neg h1a] at hstep
      by_cases h1b : top.mode = Mode.str ∧ top.character = some [c] ∧
          ¬((if 0 < i then s[i - 1]? else none) = some '\\')
      · rw [if_pos h1b] at hstep
        injection hstep with hq; injection hq with hA hB; subst hA
        exact StInv_of_pop s st top fs hinv hme
      · rw [if_neg h1b] at hstep
        injection hstep with hq; injection hq with hA hB; subst hA
        exact StInv_of_push s st top (Frame.mk Mode.str (some [c])) fs hinv hme h1a (by simp)
  · rw [if_neg h1] at hstep
    by_cases h2 : c = '('
    · rw [if_pos h2] at hstep
      by_cases h2a : top.mode = Mode.comment ∨ top.mode = Mode.str
      · rw [if_pos h2a] at hstep
        injection hstep with hq; injection hq with hA hB; subst hA; exact hinv
      · rw [if_neg h2a] at hstep
        cases hfn : execFunctionName (substring s 0 i) with
        | none => rw [hfn] at hstep; exact absurd hstep (by simp)
        | some fn =>
          rw [hfn] at hstep
          simp only [] at hstep
          injection hstep with hq; injection hq with hA hB; subst hA
          refine StInv_of_push s st top _ fs hinv hme (fun hc => h2a (Or.inl hc)) ?_
          by_cases hu : fn = ['u', 'r', 'l'] <;> simp [hu]
    · rw [if_neg h2] at hstep
      by_cases h3 : c = ')'
      · rw [if_pos h3] at hstep
        by_cases h3a : top.mode = Mode.comment ∨ top.mode = Mode.str
        · rw [if_pos h3a] at hstep
          injection hstep with hq; injection hq with hA hB; subst hA; exact hinv
        · rw [if_neg h3a] at hstep
          injection hstep with hq; injection hq with hA hB; subst hA
          exact StInv_of_pop s st top fs hinv hme
      · rw [if_neg h3] at hstep
        by_cases h4 : c = '/'
        · rw [if_pos h4] at hstep
          by_cases h4a : top.mode = Mode.comment
          · rw [if_pos h4a] at hstep
            injection hstep with hq; injection hq with hA hB; subst hA; exact hinv
          · rw [if_neg h4a] at hstep
            by_cases h4b : s[i + 1]? = some '*'
            · rw [if_pos h4b] at hstep
              injection hstep with hq; injection hq with hA hB; subst hA
              exact StInv_of_open s st top fs i ['/', '*'] CommentType.css hinv hme h4a
                (fun _ => rfl) (fun hc => absurd hc (by decide))
            · rw [if_neg h4b] at hstep
              by_cases h4c : s[i + 1]? = some '/'
              · rw [if_pos h4c] at hstep
                by_cases h4d : top.mode = Mode.url
                · rw [if_pos h4d] at hstep
                  injection hstep with hq; injection hq with hA hB; subst hA; exact hinv
                · rw [if_neg h4d] at hstep
                  injection hstep with hq; injection hq with hA hB; subst hA
                  exact StInv_of_open s st top fs i ['/', '/'] CommentType.doubleSlash hinv
                    hme h4a (fun hc => absurd hc (by decide)) (fun _ => rfl)
              · rw [if_neg h4c] at hstep
                injection hstep with hq; injection hq with hA hB; subst hA; exact hinv
        · rw [if_neg h4] at hstep
          by_cases h5 : c = '*'
          · rw [if_pos h5] at hstep
            by_cases h5a : top.mode = Mode.comment ∧ top.character = some ['/', '*'] ∧
                s[i + 1]? = some '/'
            · rw [if_pos h5a] at hstep
              cases hcm : st.comment with
              | none => rw [hcm] at hstep; exact absurd hstep (by simp)
              | some p =>
                rw [hcm] at hstep
                simp only [] at hstep
                cases hex : execBlockComment (substring s p.start (i + 1 + 1)) with
                | none => rw [hex] at hstep; exact absurd hstep (by simp)
                | some m =>
                  rw [hex] at hstep
                  simp only [] at hstep
                  injection hstep with hq; injection hq with hA hB; subst hA
                  exact StInv_of_close_block s st top fs i p m.startToken m.left m.right
                    m.endToken m.text hinv hme h5a.1 h5a.2.1 hcm
            · rw [if_neg h5a] at hstep
              injection hstep with hq; injection hq with hA hB; subst hA; exact hinv
          · rw [if_neg h5] at hstep
            by_cases h6 : c = '\n' ∨ i = s.length - 1
            · rw [if_pos h6] at hstep
              by_cases h6a : top.mode = Mode.comment ∧ top.character = some ['/', '/']
              · rw [if_pos h6a] at hstep
                cases hcm : st.comment with
                | none => rw [hcm] at hstep; exact absurd hstep (by simp)
                | some p =>
                  rw [hcm] at hstep
                  simp only [] at hstep
                  cases hex : execLineComment
                      (substring s p.start ((if c = '\n' then i - 1 else i) + 1)) with
                  | none => rw [hex] at hstep; exact absurd hstep (by simp)
                  | some m =>
                    rw [hex] at hstep
                    simp only [] at hstep
                    injection hstep with hq; injection hq with hA hB; subst hA
                    exact StInv_of_close_line s st top fs (if c = '\n' then i - 1 else i) p
                      m.startToken m.left m.right m.text hinv hme h6a.1 h6a.2 hcm
              · rw [if_neg h6a] at hstep
                injection hstep with hq; injection hq with hA hB; subst hA; exact hinv
            · rw [if_neg h6] at hstep
              injection hstep with hq; injection hq with hA hB; subst hA; exact hinv

theorem scanLoop_spec (s : List Char) : ∀ (fuel : Nat) (st : ScanState) (i : Nat)
    (res : List CommentRec), scanLoop s fuel st i = some res → StInv s st →
    ∀ r ∈ res, RecP s r := by
  intro fuel
  induction fuel with
  | zero =>
    intro st i res h hinv
    simp only [scanLoop, Option.some.injEq] at h
    subst h
    exact hinv.1
  | succ n ih =>
    intro st i res h hinv
    rw [scanLoop] at h
    by_cases hlt : i < s.length
    · rw [dif_pos hlt] at h
      cases hst : stepAt s i s[i] st with
      | none => rw [hst] at h; exact absurd h (by simp)
      | some q =>
        rw [hst] at h
        exact ih q.1 (i + (if q.2 then 2 else 1)) res h
          (stepAt_preserves s i s[i] st q.1 q.2 (by rw [hst]) hinv)
    · rw [dif_neg hlt] at h
      simp only [Option.some.injEq] at h
      subst h
      exact hinv.1

theorem initState_inv (s : List Char) : StInv s initState := by
  refine ⟨?_, ?_, ?_⟩ <;> simp [initState, RecP, PendP, StInv]

/-- Every record in the output of a completed scan satisfies `RecP`. -/
theorem findComments_recP (s : List Char) (res : List CommentRec)
    (h : findCommentsInRaws s = some res) : ∀ r ∈ res, RecP s r :=
  scanLoop_spec s s.length initState 0 res h (initState_inv s)

theorem anyTakeWhile_iff (q : List Char) :
    ((q.takeWhile isJsWhitespace).any (fun ch => ch == '\n') = true) ↔
    ('\n' ∈ q ∧ ∀ ch ∈ q.takeWhile (fun ch => ch != '\n'), isJsWhitespace ch = true) := by
  induction q with
  | nil => simp
  | cons a t ih =>
    by_cases ha : a = '\n'
    · subst ha
      have hw : isJsWhitespace '\n' = true := by decide
      simp [List.takeWhile_cons, hw]
    · have hne : (a != '\n') = true := by simp only [bne_iff_ne, ne_eq]; exact ha
      by_cases hw : isJsWhitespace a = true
      · rw [List.takeWhile_cons, if_pos hw, List.takeWhile_cons, if_pos hne]
        simp only [List.any_cons, List.forall_mem_cons, Bool.or_eq_true, beq_iff_eq]
        constructor
        · intro h
          rcases h with h | h
          · exact absurd h ha
          · obtain ⟨hm, hall⟩ := ih.mp h
            exact ⟨List.mem_cons_of_mem a hm, hw, hall⟩
        · rintro ⟨hm, _, hall⟩
          rcases List.mem_cons.mp hm with hm | hm
          · exact absurd hm.symm ha
          · exact Or.inr (ih.mpr ⟨hm, hall⟩)
      · rw [List.takeWhile_cons, if_neg hw, List.takeWhile_cons, if_pos hne]
        simp only [List.any_nil, List.forall_mem_cons]
        constructor
        · intro h
          exact absurd h (by simp)
        · rintro ⟨_, hP, _⟩
          exact absurd hP hw

/-- Characterisation of the `/\n\s*$/` test: it matches the prefix exactly
when the prefix contains a newline and everything after the last newline is
whitespace. -/
theorem searchNlWs_iff (p : List Char) :
    searchNlWs p = true ↔
    ('\n' ∈ p ∧ ∀ ch ∈ afterLastNewline p, isJsWhitespace ch = true) := by
  rw [searchNlWs, anyTakeWhile_iff]
  constructor
  · rintro ⟨hm, hall⟩
    refine ⟨List.mem_reverse.mp hm, ?_⟩
    intro ch hch
    exact hall ch (List.mem_reverse.mp (by simpa [afterLastNewline] using hch))
  · rintro ⟨hm, hall⟩
    refine ⟨List.mem_reverse.mpr hm, ?_⟩
    intro ch hch
    refine hall ch ?_
    have := List.mem_reverse.mpr hch
    simpa [afterLastNewline] using this

theorem substring_getElem (s : List Char) (a b k : Nat) (l : List Char)
    (h : substring s a b = l) (hk : k < l.length) : s[a + k]? = l[k]? := by
  subst h
  rw [substring] at hk ⊢
  have h1 : ((s.take b).drop a).length = b ⊓ s.length - a := by
    rw [List.length_drop, List.length_take]
  have h2 : b ⊓ s.length ≤ b := min_le_left b s.length
  rw [h1] at hk
  rw [List.getElem?_drop, List.getElem?_take, if_pos (by omega)]

theorem scanTrace_step (s : List Char) (n i : Nat) (c : Char) (st st2 : ScanState) (sk : Bool)
    (hc : s[i]? = some c) (hs : stepAt s i c st = some (st2, sk)) :
    scanTrace s (n + 1) (st, i) = scanTrace s n (st2, i + (if sk then 2 else 1)) := by
  obtain ⟨hlt, hg⟩ := List.getElem?_eq_some.mp hc
  rw [scanTrace, dif_pos hlt, hg, hs]

theorem scanLoop_end (s : List Char) (fuel : Nat) (st : ScanState) (i : Nat)
    (h : s.length ≤ i) : scanLoop s fuel st i = some st.result := by
  cases fuel with
  | zero => rfl
  | succ n => rw [scanLoop, dif_neg (not_lt.mpr h)]

/-- Claim C1: the spec says the scanner is total — it runs to completion and
returns a list on every input, raising no error.  The code is not total:
on `)a` the unmatched `)` pops the sentinel frame (line 79) and the next
iteration reads `.mode` of `undefined` (line 42, a TypeError); on `@a(` the
function-name regex `exec` (lines 67-69) returns `null` and line 69 indexes
it (a TypeError); on a line comment whose raw text has a carriage return
between non-whitespace characters, the decomposition regex (line 147)
returns `null` and line 151 indexes it.  All three are modelled as `none`. -/
theorem c1_scanner_crashes :
    findCommentsInRaws (String.data ")a") = none ∧
    findCommentsInRaws (String.data "@a(") = none ∧
    findCommentsInRaws (String.data "//a\rb") = none := by decide

/-- Claim C2: the spec (and the code's own comment, lines 28-30) says a
comment lookalike inside a string literal is never opened, and that the
example input yields zero records.  In the code the `/` case (lines 83-114)
only defers to `comment` mode (and `url` mode for `//`), not to `string`
mode, so `//` inside the double-quoted string opens a double-slash comment
at index 14 — inside the string's quoted region (indices 13 to 30) — which
is closed at end of input and emitted: one record, not zero. -/
theorem c2_string_does_not_suppress_comment :
    (findCommentsInRaws (String.data "a \x7b content: \"// not a comment\"; \x7d")).map
      (List.map (fun r => (r.type, r.start, r.endIdx))) =
    some [(CommentType.doubleSlash, 14, 33)] := by decide

/-- Claim C3: the spec says the context stack is never empty — an unmatched
`)` must not remove the sentinel `Normal` frame.  The code pops
unconditionally (line 79): after scanning the one-character input `)` the
stack is empty, and on `)x` the following iteration reads `.mode` of
`undefined` (line 42) and throws, modelled as `none`. -/
theorem c3_unmatched_paren_pops_sentinel :
    scanTrace (String.data ")") 1 (initState, 0) = some (ScanState.mk [] none [], 1) ∧
    findCommentsInRaws (String.data ")x") = none := by decide

/-- Claim C4: the spec says a line comment still open at end of input always
closes and is emitted with its end at the final index.  The end-of-input
check (line 142) lives only in the switch's `default` case, so when the
final character is one of the dispatched characters `"` `'` `(` `)` `/` `*`
the comment is never closed: after two steps on `//*` the comment frame and
pending record are still open at the end of the input and the scan returns
zero records.  The spec's example `a{color:red} //note` (final character
`e`) does work, producing one record with text `note` and end 18. -/
theorem c4_line_comment_at_eof_lost :
    findCommentsInRaws (String.data "//*") = some [] ∧
    scanTrace (String.data "//*") 2 (initState, 0) =
      some (ScanState.mk [] (some (Pending.mk CommentType.doubleSlash 0 true))
        [Frame.mk Mode.comment (some ['/', '/']), Frame.mk Mode.normal none], 3) ∧
    (findCommentsInRaws (String.data "a\x7bcolor:red\x7d //note")).map
      (List.map (fun r => (r.type, r.text, r.start, r.endIdx))) =
    some [(CommentType.doubleSlash, String.data "note", 13, 18)] := by decide

/-- Claim C5, counterexample: the claim says `inlineAfter` is false whenever
the comment is the first token on its line, including at the very start of
the input.  On input `// hi` the comment is the first token of the input,
yet the emitted record has `inlineAfter = true`: the test
`substring(0, i).search(/\n\s*$/) === -1` (line 109) is vacuously true on a
prefix with no newline. -/
theorem c5_start_of_input_inlineAfter_true :
    (findCommentsInRaws (String.data "// hi")).map (List.map CommentRec.inlineAfter) =
    some [true] := by decide

/-- Claim C5, amended: for every emitted record, `inlineAfter` is true
exactly when the prefix before the comment either contains no newline at
all (the comment sits on the first line of the input — true even when
nothing precedes it) or has a non-whitespace character after its last
newline (code precedes the comment on its line).  The spec's example
`a {} /* c */` gives true; a comment first on a later line gives false. -/
theorem c5_inlineAfter_amended :
    (∀ (s : List Char) (res : List CommentRec) (r : CommentRec),
      findCommentsInRaws s = some res → r ∈ res →
      (r.inlineAfter = true ↔
        ('\n' ∉ substring s 0 r.start ∨
          ∃ ch ∈ afterLastNewline (substring s 0 r.start), ¬isJsWhitespace ch = true))) ∧
    (findCommentsInRaws (String.data "a \x7b\x7d /* c */")).map
      (List.map CommentRec.inlineAfter) = some [true] ∧
    (findCommentsInRaws (String.data "a\x7b\x7d\n// x")).map
      (List.map CommentRec.inlineAfter) = some [false] := by
  refine ⟨?_, by decide, by decide⟩
  intro s res r h hr
  have hre := (findComments_recP s res h r hr).2.1
  constructor
  · intro htrue
    rw [hre] at htrue
    have hfalse : searchNlWs (substring s 0 r.start) = false := by
      cases hsw : searchNlWs (substring s 0 r.start)
      · rfl
      · rw [hsw] at htrue; exact absurd htrue (by decide)
    have hnot : ¬(searchNlWs (substring s 0 r.start) = true) := by
      rw [hfalse]; simp
    rw [searchNlWs_iff] at hnot
    by_cases hm : '\n' ∈ substring s 0 r.start
    · right
      have hnall : ¬∀ ch ∈ afterLastNewline (substring s 0 r.start),
          isJsWhitespace ch = true := fun hall => hnot ⟨hm, hall⟩
      push_neg at hnall
      exact hnall
    · left; exact hm
  · intro hor
    rw [hre]
    have hnot : ¬(searchNlWs (substring s 0 r.start) = true) := by
      rw [searchNlWs_iff]
      rintro ⟨hm, hall⟩
      rcases hor with hor | hor
      · exact hor hm
      · obtain ⟨ch, hch, hch2⟩ := hor
        exact hch2 (hall ch hch)
    have hfalse : searchNlWs (substring s 0 r.start) = false := by
      cases hsw : searchNlWs (substring s 0 r.start)
      · rfl
      · exact absurd hsw hnot
    rw [hfalse]
    rfl

/-- Claim C5, witness: the amended equivalence instantiated on the concrete
input `//b` and its emitted record. -/
theorem c5_witness :
    sampleLineRec.inlineAfter = true ↔
      ('\n' ∉ substring (String.data "//b") 0 sampleLineRec.start ∨
        ∃ ch ∈ afterLastNewline (substring (String.data "//b") 0 sampleLineRec.start),
          ¬isJsWhitespace ch = true) :=
  c5_inlineAfter_amended.1 (String.data "//b") [sampleLineRec] sampleLineRec
    (by decide) (by decide)

/-- Claim C6, counterexample: the claim says `inlineBefore` is true when
non-whitespace code follows the comment and then the input ends with no
newline.  On `/*c*/x` the code `x` follows the comment directly at end of
input, yet the record has `inlineBefore = false`: the regex
`/^\s*?\S+\s*?\n/` (line 132) demands a newline after the code. -/
theorem c6_code_at_eof_inlineBefore_false :
    (findCommentsInRaws (String.data "/*c*/x")).map (List.map CommentRec.inlineBefore) =
    some [false] := by decide

/-- Claim C6, amended: for every emitted record, `inlineBefore` is false for
double-slash records, and for block records equals the lookahead test
`searchInlineBefore` on the text after the closing marker: true exactly
when the first non-whitespace run after the marker exists — on the same or
ANY later line — and is followed by a newline before further code; false
when that code instead runs into the end of the input.  So `/*c*/ x` then
newline gives true, but so does `/*c*/` newline `x` newline, where the code
is on the next line. -/
theorem c6_inlineBefore_amended :
    (∀ (s : List Char) (res : List CommentRec) (r : CommentRec),
      findCommentsInRaws s = some res → r ∈ res →
      (r.type = CommentType.doubleSlash → r.inlineBefore = false) ∧
      (r.type = CommentType.css →
        r.inlineBefore = searchInlineBefore (s.drop (r.endIdx + 1)))) ∧
    (findCommentsInRaws (String.data "/*c*/ x\n")).map (List.map CommentRec.inlineBefore) =
      some [true] ∧
    (findCommentsInRaws (String.data "/*c*/\nx\n")).map (List.map CommentRec.inlineBefore) =
      some [true] := by
  refine ⟨?_, by decide, by decide⟩
  intro s res r h hr
  exact ⟨(findComments_recP s res h r hr).2.2.2, (findComments_recP s res h r hr).2.2.1⟩

/-- Claim C6, witness: the amended statement instantiated on the concrete
input `/*c*/ x` followed by a newline and its emitted record. -/
theorem c6_witness :
    (sampleInlineRec.type = CommentType.doubleSlash → sampleInlineRec.inlineBefore = false) ∧
    (sampleInlineRec.type = CommentType.css →
      sampleInlineRec.inlineBefore =
        searchInlineBefore ((String.data "/*c*/ x\n").drop (sampleInlineRec.endIdx + 1))) :=
  c6_inlineBefore_amended.1 (String.data "/*c*/ x\n") [sampleInlineRec] sampleInlineRec
    (by decide) (by decide)

/-- Claim C7: while the innermost open context is a `url(` argument, `//`
never opens a comment — the step leaves the state entirely unchanged
(source lines 99-101) — and the suppression is tied to the innermost `Url`
context only, as the spec's examples show: `calc(url(//x))` and
`url(//example.com/a.png)` both yield zero records. -/
theorem c7_url_suppresses_double_slash :
    (∀ (s : List Char) (i : Nat) (st : ScanState) (top : Frame) (fs : List Frame),
      st.modesEntered = top :: fs → top.mode = Mode.url → s[i + 1]? = some '/' →
      stepAt s i '/' st = some (st, false)) ∧
    findCommentsInRaws (String.data "calc(url(//x))") = some [] ∧
    findCommentsInRaws (String.data "url(//example.com/a.png)") = some [] := by
  refine ⟨?_, by decide, by decide⟩
  intro s i st top fs hme hmode hnext
  exact stepAt_url_slash_noop s i st top fs hme hmode hnext

/-- Claim C7, witness: the step property instantiated at the `/` of `//`
inside `url(//x)`, with the url frame on top of the stack. -/
theorem c7_witness :
    stepAt (String.data "url(//x)") 4 '/'
      (ScanState.mk [] none [Frame.mk Mode.url (some ['(']), Frame.mk Mode.normal none]) =
    some (ScanState.mk [] none
      [Frame.mk Mode.url (some ['(']), Frame.mk Mode.normal none], false) :=
  c7_url_suppresses_double_slash.1 (String.data "url(//x)") 4
    (ScanState.mk [] none [Frame.mk Mode.url (some ['(']), Frame.mk Mode.normal none])
    (Frame.mk Mode.url (some ['('])) [Frame.mk Mode.normal none] rfl rfl (by decide)

/-- Claim C8: an open block comment is closed only by `*` followed by `/`:
on any other character the step changes nothing, and reaching the end of
the input emits nothing further (the loop just returns the accumulated
result), so an unterminated block comment is silently dropped — the spec's
example `a{} /* never closed` yields zero records and no error. -/
theorem c8_unterminated_block_dropped :
    (∀ (s : List Char) (i : Nat) (c : Char) (st : ScanState) (top : Frame) (fs : List Frame),
      st.modesEntered = top :: fs → top.mode = Mode.comment →
      top.character = some ['/', '*'] → ¬(c = '*' ∧ s[i + 1]? = some '/') →
      stepAt s i c st = some (st, false)) ∧
    (∀ (s : List Char) (fuel : Nat) (st : ScanState) (i : Nat),
      s.length ≤ i → scanLoop s fuel st i = some st.result) ∧
    findCommentsInRaws (String.data "a\x7b\x7d /* never closed") = some [] := by
  refine ⟨?_, ?_, by decide⟩
  · intro s i c st top fs hme hmode hchar hno
    exact stepAt_block_noop s i c st top fs hme hmode hchar hno
  · intro s fuel st i h
    exact scanLoop_end s fuel st i h

/-- Claim C8, witness: both universal parts instantiated concretely — the
character `a` inside an open block comment of `/*a` changes nothing, and a
scan of `ab` that has reached index 2 returns its accumulated (empty)
result. -/
theorem c8_witness :
    stepAt (String.data "/*a") 2 'a'
      (ScanState.mk [] (some (Pending.mk CommentType.css 0 true))
        [Frame.mk Mode.comment (some ['/', '*']), Frame.mk Mode.normal none]) =
      some (ScanState.mk [] (some (Pending.mk CommentType.css 0 true))
        [Frame.mk Mode.comment (some ['/', '*']), Frame.mk Mode.normal none], false) ∧
    scanLoop (String.data "ab") 5 initState 2 = some [] :=
  ⟨c8_unterminated_block_dropped.1 (String.data "/*a") 2 'a'
      (ScanState.mk [] (some (Pending.mk CommentType.css 0 true))
        [Frame.mk Mode.comment (some ['/', '*']), Frame.mk Mode.normal none])
      (Frame.mk Mode.comment (some ['/', '*'])) [Frame.mk Mode.normal none]
      rfl rfl rfl (by decide),
    c8_unterminated_block_dropped.2.1 (String.data "ab") 5 initState 2 (by decide)⟩

/-- Claim C9: whenever the scanner stands, in a normal context, at a
position where the next thirteen characters of the input are the block
comment `/*  hello  */`, the next eleven steps of the scan open, traverse
and close that comment and append exactly one record whose decomposition
is: marker `/*`, leading whitespace of two spaces, inner text `hello`,
trailing whitespace of two spaces, close marker `*/`. -/
theorem c9_block_decomposition_roundtrip (s : List Char) (i : Nat) (st : ScanState)
    (top : Frame) (fs : List Frame)
    (hme : st.modesEntered = top :: fs) (htop : top.mode = Mode.normal)
    (hsub : substring s i (i + 13) = String.data "/*  hello  */") :
    ∃ r : CommentRec,
      scanTrace s 11 (st, i) =
        some ({ st with result := st.result ++ [r], comment := none }, i + 13) ∧
      r.type = CommentType.css ∧ r.start = i ∧ r.endIdx = i + 12 ∧
      r.raws.startToken = String.data "/*" ∧ r.raws.left = String.data "  " ∧
      r.text = String.data "hello" ∧ r.raws.right = String.data "  " ∧
      r.raws.endToken = some (String.data "*/") := by
  have hlen : (String.data "/*  hello  */").length = 13 := by decide
  have g : ∀ k : Nat, k < 13 → s[i + k]? = (String.data "/*  hello  */")[k]? := by
    intro k hk
    exact substring_getElem s i (i + 13) k _ hsub (by rw [hlen]; exact hk)
  have h0 : s[i]? = some '/' := by
    have h00 := g 0 (by norm_num)
    rw [Nat.add_zero] at h00
    rw [h00]; decide
  have h1 : s[i + 1]? = some '*' := by rw [g 1 (by norm_num)]; decide
  have h2 : s[i + 2]? = some ' ' := by rw [g 2 (by norm_num)]; decide
  have h3 : s[i + 3]? = some ' ' := by rw [g 3 (by norm_num)]; decide
  have h4 : s[i + 4]? = some 'h' := by rw [g 4 (by norm_num)]; decide
  have h5 : s[i + 5]? = some 'e' := by rw [g 5 (by norm_num)]; decide
  have h6 : s[i + 6]? = some 'l' := by rw [g 6 (by norm_num)]; decide
  have h7 : s[i + 7]? = some 'l' := by rw [g 7 (by norm_num)]; decide
  have h8 : s[i + 8]? = some 'o' := by rw [g 8 (by norm_num)]; decide
  have h9 : s[i + 9]? = some ' ' := by rw [g 9 (by norm_num)]; decide
  have h10 : s[i + 10]? = some ' ' := by rw [g 10 (by norm_num)]; decide
  have h11 : s[i + 11]? = some '*' := by rw [g 11 (by norm_num)]; decide
  have h12 : s[i + 12]? = some '/' := by rw [g 12 (by norm_num)]; decide
  set pend : Pending := Pending.mk CommentType.css i (!searchNlWs (substring s 0 i)) with hpend
  set st1 : ScanState := { st with
    modesEntered := Frame.mk Mode.comment (some ['/', '*']) :: st.modesEntered,
    comment := some pend } with hst1
  have hreach1 : scanTrace s 11 (st, i) = scanTrace s 10 (st1, i + 2) := by
    have hop := stepAt_open_block s i st top fs hme (by rw [htop]; decide) h1
    have hq := scanTrace_step s 10 i '/' st st1 true h0 hop
    simpa using hq
  have noop : ∀ (j : Nat) (c : Char) (n : Nat), s[j]? = some c → c ≠ '*' →
      scanTrace s (n + 1) (st1, j) = scanTrace s n (st1, j + 1) := by
    intro j c n hc hcne
    have hstep := stepAt_block_noop s j c st1 (Frame.mk Mode.comment (some ['/', '*']))
      st.modesEntered rfl rfl rfl (fun hq => hcne hq.1)
    have hq := scanTrace_step s n j c st1 st1 false hc hstep
    simpa using hq
  have hreach2 : scanTrace s 10 (st1, i + 2) = scanTrace s 9 (st1, i + 3) := by
    have hq := noop (i + 2) ' ' 9 h2 (by decide)
    rwa [show i + 2 + 1 = i + 3 by omega] at hq
  have hreach3 : scanTrace s 9 (st1, i + 3) = scanTrace s 8 (st1, i + 4) := by
    have hq := noop (i + 3) ' ' 8 h3 (by decide)
    rwa [show i + 3 + 1 = i + 4 by omega] at hq
  have hreach4 : scanTrace s 8 (st1, i + 4) = scanTrace s 7 (st1, i + 5) := by
    have hq := noop (i + 4) 'h' 7 h4 (by decide)
    rwa [show i + 4 + 1 = i + 5 by omega] at hq
  have hreach5 : scanTrace s 7 (st1, i + 5) = scanTrace s 6 (st1, i + 6) := by
    have hq := noop (i + 5) 'e' 6 h5 (by decide)
    rwa [show i + 5 + 1 = i + 6 by omega] at hq
  have hreach6 : scanTrace s 6 (st1, i + 6) = scanTrace s 5 (st1, i + 7) := by
    have hq := noop (i + 6) 'l' 5 h6 (by decide)
    rwa [show i + 6 + 1 = i + 7 by omega] at hq
  have hreach7 : scanTrace s 5 (st1, i + 7) = scanTrace s 4 (st1, i + 8) := by
    have hq := noop (i + 7) 'l' 4 h7 (by decide)
    rwa [show i + 7 + 1 = i + 8 by omega] at hq
  have hreach8 : scanTrace s 4 (st1, i + 8) = scanTrace s 3 (st1, i + 9) := by
    have hq := noop (i + 8) 'o' 3 h8 (by decide)
    rwa [show i + 8 + 1 = i + 9 by omega] at hq
  have hreach9 : scanTrace s 3 (st1, i + 9) = scanTrace s 2 (st1, i + 10) := by
    have hq := noop (i + 9) ' ' 2 h9 (by decide)
    rwa [show i + 9 + 1 = i + 10 by omega] at hq
  have hreach10 : scanTrace s 2 (st1, i + 10) = scanTrace s 1 (st1, i + 11) := by
    have hq := noop (i + 10) ' ' 1 h10 (by decide)
    rwa [show i + 10 + 1 = i + 11 by omega] at hq
  set m : BlockParts := BlockParts.mk (String.data "/*") (String.data "  ")
    (String.data "hello") (String.data "  ") (String.data "*/") with hm
  have hex : execBlockComment (substring s pend.start (i + 11 + 1 + 1)) = some m := by
    show execBlockComment (substring s i (i + 11 + 1 + 1)) = some m
    rw [show i + 11 + 1 + 1 = i + 13 by omega, hsub]
    decide
  set rec1 : CommentRec := CommentRec.mk pend.type pend.start (i + 11 + 1)
    (Raws.mk m.startToken m.left (substring s pend.start (i + 11 + 1 + 1)) m.right
      (some m.endToken))
    m.text pend.inlineAfter (searchInlineBefore (s.drop (i + 11 + 2))) with hrec
  set st2 : ScanState := { st1 with
    modesEntered := st.modesEntered, comment := none,
    result := st1.result ++ [rec1] } with hst2
  have hreach11 : scanTrace s 1 (st1, i + 11) = scanTrace s 0 (st2, i + 13) := by
    have hnext : s[i + 11 + 1]? = some '/' := by
      rwa [show i + 11 + 1 = i + 12 by omega]
    have hcl := stepAt_close_block s (i + 11) st1 (Frame.mk Mode.comment (some ['/', '*']))
      st.modesEntered pend m rfl rfl rfl hnext rfl hex
    have hq := scanTrace_step s 0 (i + 11) '*' st1 st2 true h11 hcl
    rw [show i + 11 + (if true then 2 else 1) = i + 13 by simp] at hq
    exact hq
  refine ⟨rec1, ?_, rfl, rfl, ?_, rfl, rfl, rfl, rfl, rfl⟩
  · rw [hreach1, hreach2, hreach3, hreach4, hreach5, hreach6, hreach7, hreach8, hreach9,
      hreach10, hreach11]
    rfl
  · show i + 11 + 1 = i + 12
    omega

/-- Claim C9, witness: the round-trip property instantiated on the input
that is exactly `/*  hello  */`, scanned from the initial state. -/
theorem c9_witness :
    ∃ r : CommentRec,
      scanTrace (String.data "/*  hello  */") 11 (initState, 0) =
        some ({ initState with result := initState.result ++ [r], comment := none },
          0 + 13) ∧
      r.type = CommentType.css ∧ r.start = 0 ∧ r.endIdx = 0 + 12 ∧
      r.raws.startToken = String.data "/*" ∧ r.raws.left = String.data "  " ∧
      r.text = String.data "hello" ∧ r.raws.right = String.data "  " ∧
      r.raws.endToken = some (String.data "*/") :=
  c9_block_decomposition_roundtrip (String.data "/*  hello  */") 0 initState
    (Frame.mk Mode.normal none) [] rfl rfl (by decide)

/-- Claim C10: for every record the scanner emits, the `raws.text` field is
the exact substring of the input from `start` to `end` inclusive
(`rawString.substring(comment.start, comment.end + 1)`, source lines 121
and 146): the record carries the full comment span, markers included. -/
theorem c10_raw_is_exact_span (s : List Char) (res : List CommentRec) (r : CommentRec)
    (h : findCommentsInRaws s = some res) (hr : r ∈ res) :
    r.raws.text = substring s r.start (r.endIdx + 1) :=
  (findComments_recP s res h r hr).1

/-- Claim C10, witness: the span property instantiated on the concrete input
`/*a*/` and its emitted record. -/
theorem c10_witness :
    sampleBlockRec.raws.text =
      substring (String.data "/*a*/") sampleBlockRec.start (sampleBlockRec.endIdx + 1) :=
  c10_raw_is_exact_span (String.data "/*a*/") [sampleBlockRec] sampleBlockRec
    (by decide) (by decide)

end FindComments
